import Mathlib

/-! # Business-hours extractor

A shallow embedding of `main.go` (package `main`): the `Date`, `BusinessHours` and
`Timespan` types with `Date.ToString`, `Date.ToBusinessHours`, `DateStringToTime`,
`Timespan.DatesInBetween` and `Timespan.BusinessHoursOfEachDate`.

The program is a thin layer over the Go standard library, so the library functions it
calls are embedded as well, in the namespaces `strings`, `strconv` and `time`, following
their implementation in Go 1.22 on a 64-bit platform:

* Go strings are modelled as Lean strings (sequences of characters); every library
  function used here only ever inspects ASCII characters.
* Go `int`, `int64` and `uint64` values are modelled as integers, with an explicit wrap
  modulo `2^64` (`int64`, `uint64`) wherever the Go arithmetic can overflow, and modulo
  `2^32` for the `int32` conversion.  The fields of the `Date` struct are Go `int`s; they
  are modelled as integers, of which those in the `int64` range are the values the
  program can hold.
* A `time.Location` is modelled by its `lookup` function (UTC offset in force at an
  instant, with the validity interval of that offset), and the time-zone database by a
  parameter `db` holding the local zone and the location of every zone name that has
  one.
* The `for` loop of `DatesInBetween` has no static bound, so it takes a fuel argument and
  answers `none` when the fuel is used up before the loop condition fails.
-/

namespace BHX

/-! ## Errors -/

/-- The error values the program can return: its four sentinels, the error of
`time.LoadLocation` for a zone name, and the `*time.ParseError` of `time.ParseInLocation`. -/
inductive Error where
  | invalidDate
  | invalidYear
  | invalidMonth
  | invalidDay
  | loadLocation (name : String)
  | timeParse
  deriving DecidableEq, Repr

/-- Sentinel `errors.New("Invalid date")`. -/
def ErrInvalidDate : Error := Error.invalidDate
/-- Sentinel `errors.New("Invalid year")`. -/
def ErrInvalidYear : Error := Error.invalidYear
/-- Sentinel `errors.New("Invalid month")`. -/
def ErrInvalidMonth : Error := Error.invalidMonth
/-- Sentinel `errors.New("Invalid day")`. -/
def ErrInvalidDay : Error := Error.invalidDay

/-! ## Package `strings` -/

namespace strings

/-- Pieces of a character list between the occurrences of the separator character. -/
def splitChars (sep : Char) : List Char → List (List Char)
  | [] => [[]]
  | c :: cs =>
    if c = sep then [] :: splitChars sep cs
    else
      match splitChars sep cs with
      | [] => [[c]]
      | p :: ps => (c :: p) :: ps

/-- Go `strings.Split(s, sep)` for a one-character separator: the substrings between the
occurrences of `sep`, one more than there are occurrences. -/
def Split (s : String) (sep : Char) : List String :=
  (splitChars sep s.data).map String.mk

end strings

/-! ## Package `strconv` -/

namespace strconv

/-- ASCII decimal digit test. -/
def isDigit (c : Char) : Bool := decide (48 ≤ c.toNat) && decide (c.toNat ≤ 57)

/-- Value of an ASCII decimal digit. -/
def digitVal (c : Char) : Nat := c.toNat - 48

/-- Decimal value of a run of digits, `none` if a character is not a digit. -/
def parseDigits : List Char → Nat → Option Nat
  | [], n => some n
  | c :: cs, n => if isDigit c then parseDigits cs (n * 10 + digitVal c) else none

/-- Go `strconv.Atoi` on a 64-bit platform: an optional sign followed by at least one
decimal digit, the value lying in the `int64` range; `none` stands for a non-nil error. -/
def Atoi (s : String) : Option Int :=
  match s.data with
  | [] => none
  | c :: cs =>
    let ds := if c = '-' ∨ c = '+' then cs else c :: cs
    match ds with
    | [] => none
    | _ :: _ =>
      match parseDigits ds 0 with
      | none => none
      | some n =>
        let v : Int := if c = '-' then -(n : Int) else (n : Int)
        if -(2 : Int) ^ 63 ≤ v ∧ v ≤ (2 : Int) ^ 63 - 1 then some v else none

end strconv

/-! ## Package `time` -/

namespace time

/-- Result of `Location.lookup`: the UTC offset (seconds east of UTC) in force, and the
interval of instants `[zstart, zend)` over which it is in force. -/
structure Zone where
  offset : Int
  zstart : Int
  zend : Int
  deriving DecidableEq, Repr

/-- A `*time.Location`, given by its `lookup` method on Unix seconds.  Zone offsets are
32-bit integers in the time-zone files Go reads, and so in every location. -/
structure Location where
  lookup : Int → Zone
  offset_int32 : ∀ s, -2147483648 ≤ (lookup s).offset ∧ (lookup s).offset ≤ 2147483647

/-- Go `alpha`: the beginning of time of a zone table. -/
def alpha : Int := -(2 : Int) ^ 63
/-- Go `omega`: the end of time of a zone table. -/
def omega : Int := (2 : Int) ^ 63 - 1

/-- Go `time.UTC`. -/
def UTC : Location := ⟨fun _ => ⟨0, alpha, omega⟩, fun _ => by dsimp only; decide⟩

/-- The time-zone data of the system: the location `time.Local` and the locations of the
zone names found in the zone files. -/
structure TZData where
  localZone : Location
  zone : String → Option Location

/-- Go `containsDotDot`: two consecutive periods somewhere in the name. -/
def containsDotDot : List Char → Bool
  | a :: b :: rest => (a == '.' && b == '.') || containsDotDot (b :: rest)
  | _ => false

/-- Go `time.LoadLocation`: the names `""` and `"UTC"` give UTC and `"Local"` gives the
local zone; a name with `..` in it or starting with a slash or backslash is an error;
any other name is looked up in the zone files, and an unknown name is an error. -/
def LoadLocation (db : TZData) (name : String) : Except Error Location :=
  if name = "" ∨ name = "UTC" then Except.ok UTC
  else if name = "Local" then Except.ok db.localZone
  else if containsDotDot name.data = true ∨ name.data.head? = some '/' ∨
      name.data.head? = some '\\' then
    Except.error (Error.loadLocation name)
  else
    match db.zone name with
    | some loc => Except.ok loc
    | none => Except.error (Error.loadLocation name)

/-- A `time.Time` with zero nanoseconds: an instant in Unix seconds (an `int64`) and a
location. -/
structure Time where
  unix : Int
  loc : Location

/-- Conversion to Go `uint64`: the value modulo `2^64`. -/
def uint64 (x : Int) : Int := x % 18446744073709551616

/-- Conversion to Go `int64`: the value wrapped into `[-2^63, 2^63)`. -/
def int64 (x : Int) : Int :=
  (x + 9223372036854775808) % 18446744073709551616 - 9223372036854775808

def secondsPerDay : Int := 86400
def absoluteZeroYear : Int := -292277022399
def daysPer400Years : Int := 365 * 400 + 97
def daysPer100Years : Int := 365 * 100 + 24
def daysPer4Years : Int := 365 * 4 + 1
/-- Go `absoluteToInternal = (absoluteZeroYear - internalYear) * 365.2425 * secondsPerDay`. -/
def absoluteToInternal : Int := (absoluteZeroYear - 1) * 31556952
def internalToAbsolute : Int := -absoluteToInternal
def unixToInternal : Int := (1969 * 365 + 1969 / 4 - 1969 / 100 + 1969 / 400) * secondsPerDay
def internalToUnix : Int := -unixToInternal

/-- The zero `time.Time`: January 1, year 1, 00:00:00 UTC. -/
def Time.zero : Time := ⟨internalToUnix, UTC⟩

/-- Go `daysBefore[m]`: days in a non-leap year before month `m + 1`. -/
def daysBefore (m : Int) : Int :=
  if m = 0 then 0 else if m = 1 then 31 else if m = 2 then 59 else if m = 3 then 90
  else if m = 4 then 120 else if m = 5 then 151 else if m = 6 then 181
  else if m = 7 then 212 else if m = 8 then 243 else if m = 9 then 273
  else if m = 10 then 304 else if m = 11 then 334 else 365

/-- Go `isLeap`; a remainder of Go's truncated division is zero exactly when that of the
floor division is. -/
def isLeap (year : Int) : Bool :=
  year % 4 == 0 && (year % 100 != 0 || year % 400 == 0)

/-- Go `daysIn(m, year)`. -/
def daysIn (m year : Int) : Int :=
  if m = 2 ∧ isLeap year = true then 29 else daysBefore m - daysBefore (m - 1)

/-- Go `norm(hi, lo, base)`: the pair with `lo` brought into `[0, base)`.  The divisions
are of non-negative numbers, and of `lo` only sums that lie between `lo` and `base` are
formed; `hi` is an `int` and wraps. -/
def norm (hi lo base : Int) : Int × Int :=
  let (hi, lo) := if lo < 0 then
      let n := (-lo - 1) / base + 1
      (int64 (hi - n), lo + n * base)
    else (hi, lo)
  if lo ≥ base then
    let n := lo / base
    (int64 (hi + n), lo - n * base)
  else (hi, lo)

/-- Go `daysSinceEpoch(year)`: days from the absolute epoch to January 1 of `year`, in
`uint64` arithmetic. -/
def daysSinceEpoch (year : Int) : Int :=
  let y := uint64 (year - absoluteZeroYear)
  let n := y / 400
  let y := y - 400 * n
  let d := uint64 (daysPer400Years * n)
  let n := y / 100
  let y := y - 100 * n
  let d := uint64 (d + daysPer100Years * n)
  let n := y / 4
  let y := y - 4 * n
  let d := uint64 (d + daysPer4Years * n)
  let n := y
  uint64 (d + 365 * n)

/-- The Unix second count Go `time.Date` computes from the calendar and clock fields
before it looks at the location: the wall clock read as if it were UTC.  The day and
second counts are `uint64`, the result is an `int64`. -/
def civilUnix (year month day hour min sec : Int) : Int :=
  let m := int64 (month - 1)
  let (year, m) := norm year m 12
  let month := m + 1
  let (min, sec) := norm min sec 60
  let (hour, min) := norm hour min 60
  let (day, hour) := norm day hour 24
  let d := daysSinceEpoch year
  let d := uint64 (d + daysBefore (month - 1))
  let d := if isLeap year = true ∧ month ≥ 3 then uint64 (d + 1) else d
  let d := uint64 (d + uint64 (int64 (day - 1)))
  let abs := uint64 (d * secondsPerDay)
  let abs := uint64 (abs + uint64 (hour * 3600 + min * 60 + sec))
  int64 (int64 abs + (absoluteToInternal + internalToUnix))

/-- The end of Go `time.Date`: the offset in force at `unix` read as an instant is looked
up, and looked up again at the adjusted instant when that falls outside the validity
interval of the first zone; the offset found is subtracted. -/
def zoned (unix : Int) (loc : Location) : Time :=
  let z := loc.lookup unix
  if z.offset ≠ 0 then
    let utc := int64 (unix - z.offset)
    let offset := if utc < z.zstart ∨ utc ≥ z.zend then (loc.lookup utc).offset else z.offset
    ⟨int64 (unix - offset), loc⟩
  else ⟨unix, loc⟩

/-- Go `time.Date(year, month, day, hour, min, sec, 0, loc)`. -/
def Date (year month day hour min sec : Int) (loc : Location) : Time :=
  zoned (civilUnix year month day hour min sec) loc

/-- Go `Time.abs`: seconds since the absolute epoch of the wall clock in the location,
a `uint64`. -/
def Time.abs (t : Time) : Int :=
  uint64 (t.unix + (t.loc.lookup t.unix).offset + (unixToInternal + internalToAbsolute))

/-- Go `absDate(abs, false)`: the year of an absolute second count and the zero-based
day within that year. -/
def absYearDay (abs : Int) : Int × Int :=
  let d := abs / secondsPerDay
  let n := d / daysPer400Years
  let y := 400 * n
  let d := d - daysPer400Years * n
  let n := d / daysPer100Years
  let n := n - n / 4
  let y := y + 100 * n
  let d := d - daysPer100Years * n
  let n := d / daysPer4Years
  let y := y + 4 * n
  let d := d - daysPer4Years * n
  let n := d / 365
  let n := n - n / 4
  let y := y + n
  let d := d - 365 * n
  (y + absoluteZeroYear, d)

/-- The second half of Go `absDate(abs, true)`: month and day of the month of a zero-based
day of the year. -/
def monthDay (year yday : Int) : Int × Int :=
  if isLeap year = true ∧ yday = 31 + 29 - 1 then (2, 29)
  else
    let day := if isLeap year = true ∧ yday > 31 + 29 - 1 then yday - 1 else yday
    let month := day / 31
    let e := daysBefore (month + 1)
    if day ≥ e then (month + 2, day - e + 1)
    else (month + 1, day - daysBefore month + 1)

/-- Go `absDate(abs, true)`: year, month and day of an absolute second count. -/
def absDate (abs : Int) : Int × Int × Int :=
  let (year, yday) := absYearDay abs
  let (month, day) := monthDay year yday
  (year, month, day)

/-- Go `absClock(abs)`: hour, minute and second of an absolute second count. -/
def absClock (abs : Int) : Int × Int × Int :=
  let sec := abs % secondsPerDay
  let hour := sec / 3600
  let sec := sec - hour * 3600
  let min := sec / 60
  let sec := sec - min * 60
  (hour, min, sec)

/-- Go `Time.Date()`: year, month and day in which the instant occurs, in its location. -/
def Time.Date (t : Time) : Int × Int × Int := absDate t.abs

/-- Go `Time.Clock()`: hour, minute and second within the day, in its location. -/
def Time.Clock (t : Time) : Int × Int × Int := absClock t.abs

/-- Go `Time.AddDate(years, months, days)`. -/
def Time.AddDate (t : Time) (years months days : Int) : Time :=
  let (year, month, day) := t.Date
  let (hour, min, sec) := t.Clock
  time.Date (int64 (year + years)) (int64 (month + months)) (int64 (day + days))
    hour min sec t.loc

/-- Go `Time.sec`: seconds since January 1 of year 1, the `int64` a `Time` stores. -/
def Time.sec (t : Time) : Int := int64 (t.unix + unixToInternal)

/-- Go `Time.Before`. -/
def Time.Before (t u : Time) : Bool := decide (t.sec < u.sec)

/-- Go `Time.Equal`. -/
def Time.Equal (t u : Time) : Bool := decide (t.sec = u.sec)

/-- Go `Time.Unix()`. -/
def Time.Unix (t : Time) : Int := t.unix

end time

/-! ## The program -/

/-- The `Date` struct: year, month and day of a single date. -/
structure Date where
  Year : Int
  Month : Int
  Day : Int
  deriving DecidableEq, Repr

/-- `DateStringToTime` of the program; the pair is Go's `(time.Time, error)`. -/
def DateStringToTime (db : time.TZData) (date timezone : String) :
    time.Time × Option Error :=
  let t := time.Time.zero
  match strings.Split date '-' with
  | [ys, ms, ds] =>
    match strconv.Atoi ys with
    | none => (t, some ErrInvalidYear)
    | some year =>
      match strconv.Atoi ms with
      | none => (t, some ErrInvalidMonth)
      | some month =>
        match strconv.Atoi ds with
        | none => (t, some ErrInvalidDay)
        | some day =>
          match time.LoadLocation db timezone with
          | Except.error err => (t, some err)
          | Except.ok location => (time.Date year month day 0 0 0 location, none)
  | _ => (t, some ErrInvalidDate)

/-- The `Timespan` struct. -/
structure Timespan where
  StartDate : String
  EndDate : String
  DayStartHour : String
  DayEndHour : String
  Timezone : String
  deriving DecidableEq, Repr

/-- `Timespan.startDateToTime` of the program. -/
def Timespan.startDateToTime (db : time.TZData) (t : Timespan) :
    time.Time × Option Error :=
  DateStringToTime db t.StartDate t.Timezone

/-- `Timespan.endDateToTime` of the program. -/
def Timespan.endDateToTime (db : time.TZData) (t : Timespan) :
    time.Time × Option Error :=
  DateStringToTime db t.EndDate t.Timezone

/-- The `for today.Before(d2) || today.Equal(d2)` loop of `DatesInBetween`: `none` when
the fuel runs out while the loop condition still holds. -/
def datesLoop : Nat → time.Time → time.Time → List Date → Option (List Date)
  | 0, today, d2, dates =>
    if today.Before d2 || today.Equal d2 then none else some dates
  | fuel + 1, today, d2, dates =>
    if today.Before d2 || today.Equal d2 then
      let (year, month, day) := today.Date
      let dates := dates ++ [⟨year, month, day⟩]
      let tomorrow := today.AddDate 0 0 1
      datesLoop fuel tomorrow d2 dates
    else some dates

/-- `Timespan.DatesInBetween` of the program; the pair is Go's `([]Date, error)`. -/
def Timespan.DatesInBetween (db : time.TZData) (fuel : Nat)
    (t : Timespan) : Option (List Date × Option Error) :=
  let dates : List Date := []
  match t.startDateToTime db with
  | (_, some err) => some (dates, some err)
  | (d1, none) =>
    match t.endDateToTime db with
    | (_, some err) => some (dates, some err)
    | (d2, none) =>
      match datesLoop fuel d1 d2 dates with
      | none => none
      | some dates => some (dates, none)

namespace time

/-- The year that lies `a` 400-year cycles, `b` centuries, `c` 4-year cycles and `e` years
after the absolute epoch. -/
def cycYear (a b c e : Int) : Int := 400 * a + 100 * b + 4 * c + e + absoluteZeroYear

/-- The month estimate at the end of `absDate`, on a day of the year from which a leap day
has been removed. -/
def monthDayCore (day : Int) : Int × Int :=
  let month := day / 31
  let e := daysBefore (month + 1)
  if day ≥ e then (month + 2, day - e + 1)
  else (month + 1, day - daysBefore month + 1)

/-- Zero-based day of the year of a month and a day of the month, as `time.Date` adds it
up. -/
def yearDay (year month day : Int) : Int :=
  daysBefore (month - 1) + (if isLeap year = true ∧ month ≥ 3 then 1 else 0) + (day - 1)

/-- Days from the absolute epoch to January 1 of `year`, counted exactly: what
`daysSinceEpoch` computes when nothing wraps. -/
def daysBeforeYear (year : Int) : Int :=
  let y := year - absoluteZeroYear
  let n := y / 400
  let y := y - 400 * n
  let d := daysPer400Years * n
  let n := y / 100
  let y := y - 100 * n
  let d := d + daysPer100Years * n
  let n := y / 4
  let y := y - 4 * n
  let d := d + daysPer4Years * n
  let n := y
  d + 365 * n

/-- Distance in seconds from a Unix second count to the absolute one. -/
def unixToAbsolute : Int := unixToInternal + internalToAbsolute

/-- The zone table of `Asia/Jakarta` from 1950 on: UTC+07:30 until the end of 1963,
UTC+07:00 (WIB) since. -/
def jakarta : Location :=
  ⟨fun s => if s < -189415800 then ⟨27000, -620812800, -189415800⟩
    else ⟨25200, -189415800, omega⟩,
   fun s => by dsimp only; split <;> (dsimp only; decide)⟩

/-- The zone table of `America/Sao_Paulo` between February 2018 and February 2019:
UTC-03:00, and daylight saving time UTC-02:00 from local midnight of 4 November 2018
(03:00 UTC, Unix second 1541300400). -/
def saoPaulo : Location :=
  ⟨fun s => if s < 1541300400 then ⟨-10800, 1518919200, 1541300400⟩
    else ⟨-7200, 1541300400, 1550368800⟩,
   fun s => by dsimp only; split <;> (dsimp only; decide)⟩

/-- The zone table of `Pacific/Apia` between September 2011 and April 2012: UTC-10:00
until the end of 29 December 2011 (Unix second 1325239200), then UTC+14:00, the islands
having skipped 30 December 2011. -/
def apia : Location :=
  ⟨fun s => if s < 1325239200 then ⟨-36000, 1316872800, 1325239200⟩
    else ⟨50400, 1325239200, 1333202400⟩,
   fun s => by dsimp only; split <;> (dsimp only; decide)⟩

/-- The zone table of `America/New_York` between November 2019 and November 2020:
UTC-05:00 (EST), and daylight saving time UTC-04:00 (EDT) from 02:00 local time of
8 March 2020 (07:00 UTC, Unix second 1583650800). -/
def newYork : Location :=
  ⟨fun s => if s < 1583650800 then ⟨-18000, 1572760800, 1583650800⟩
    else ⟨-14400, 1583650800, 1604210400⟩,
   fun s => by dsimp only; split <;> (dsimp only; decide)⟩

/-- Time-zone data holding the four zones above, with UTC as the local zone. -/
def tzdb : TZData :=
  ⟨UTC, fun name =>
    if name = "Asia/Jakarta" then some jakarta
    else if name = "America/Sao_Paulo" then some saoPaulo
    else if name = "Pacific/Apia" then some apia
    else if name = "America/New_York" then some newYork
    else none⟩

end time

/-- The local wall clock of a time, given as the Unix second at which a clock in UTC shows
the same date and time of day. -/
def time.Time.wall (t : time.Time) : Int := t.unix + (t.loc.lookup t.unix).offset

/-- Year, month and day numbers between `-10^11` and `10^11`: far inside the range in
which the 64-bit second counts of package `time` do not overflow. -/
def fieldsInRange (y m d : Int) : Prop :=
  (-100000000000 ≤ y ∧ y ≤ 100000000000) ∧ (-100000000000 ≤ m ∧ m ≤ 100000000000) ∧
    (-100000000000 ≤ d ∧ d ≤ 100000000000)

/-- Number of the day with the given year, month and day numbers, counted from the
absolute epoch, the month and day numbers not being restricted to the calendar: whole
years in the month number go to the year, and the day number counts on from the first of
the month. -/
def dayIndex (y m d : Int) : Int :=
  time.daysBeforeYear (y + (m - 1) / 12) +
    time.yearDay (y + (m - 1) / 12) ((m - 1) % 12 + 1) d

/-- The calendar date, in UTC, of a Unix second count. -/
def Date.ofUnix (u : Int) : Date :=
  let (year, month, day) := time.absDate (u + time.unixToAbsolute)
  ⟨year, month, day⟩

/-- A date of the calendar: the month in `1..12`, the day in `1..daysIn`. -/
def Date.Valid (d : Date) : Prop :=
  1 ≤ d.Month ∧ d.Month ≤ 12 ∧ 1 ≤ d.Day ∧ d.Day ≤ time.daysIn d.Month d.Year

instance (d : Date) : Decidable d.Valid := by
  unfold Date.Valid; infer_instance

/-- Number of the day of a valid date, counted from the absolute epoch. -/
def Date.dayNumber (d : Date) : Int :=
  time.daysBeforeYear d.Year + time.yearDay d.Year d.Month d.Day

/-- The year, month and day numbers `DateStringToTime` reads from a date string: the
three dash-separated components, each converted by `strconv.Atoi`. -/
def dateFields (date : String) : Option (Int × Int × Int) :=
  match strings.Split date '-' with
  | [ys, ms, ds] =>
    match strconv.Atoi ys, strconv.Atoi ms, strconv.Atoi ds with
    | some y, some m, some d => some (y, m, d)
    | _, _, _ => none
  | _ => none

/-- Unix second of 00:00:00 UTC on the day with the given year, month and day numbers. -/
def utcMidnight (y m d : Int) : Int := (time.Date y m d 0 0 0 time.UTC).Unix

namespace time

theorem isLeap_iff (y : Int) : isLeap y = true ↔ (y % 4 = 0 ∧ (y % 100 ≠ 0 ∨ y % 400 = 0)) := by
  simp [isLeap]

theorem cycYear_exists (y : Int) : ∃ a b c e : Int, 0 ≤ b ∧ b ≤ 3 ∧ 0 ≤ c ∧ c ≤ 24 ∧ 0 ≤ e ∧ e ≤ 3 ∧
    y = cycYear a b c e := by
  refine ⟨(y - absoluteZeroYear) / 400, (y - absoluteZeroYear) % 400 / 100,
    (y - absoluteZeroYear) % 100 / 4, (y - absoluteZeroYear) % 4, ?_⟩
  simp only [cycYear, absoluteZeroYear]
  omega

theorem isLeap_cycYear (a b c e : Int) (hb : 0 ≤ b) (hb2 : b ≤ 3) (hc : 0 ≤ c) (hc2 : c ≤ 24)
    (he : 0 ≤ e) (he2 : e ≤ 3) :
    isLeap (cycYear a b c e) = true ↔ (e = 3 ∧ (c < 24 ∨ b = 3)) := by
  rw [isLeap_iff]
  simp only [cycYear, absoluteZeroYear]
  omega

theorem daysBeforeYear_cycYear (a b c e : Int) (hb : 0 ≤ b) (hb2 : b ≤ 3) (hc : 0 ≤ c) (hc2 : c ≤ 24)
    (he : 0 ≤ e) (he2 : e ≤ 3) :
    daysBeforeYear (cycYear a b c e) = 146097 * a + 36524 * b + 1461 * c + 365 * e := by
  simp only [daysBeforeYear, cycYear, absoluteZeroYear, daysPer400Years, daysPer100Years, daysPer4Years]
  have h1 : (400 * a + 100 * b + 4 * c + e + -292277022399 - -292277022399) = 400 * a + 100 * b + 4 * c + e := by ring
  rw [h1]
  have h2 : (400 * a + 100 * b + 4 * c + e) / 400 = a := by omega
  rw [h2]
  have h3 : (400 * a + 100 * b + 4 * c + e - 400 * a) / 100 = b := by omega
  rw [h3]
  have h4 : (400 * a + 100 * b + 4 * c + e - 400 * a - 100 * b) / 4 = c := by omega
  rw [h4]
  omega

theorem absYearDay_cyc (a b c e yd s : Int) (hb : 0 ≤ b) (hb2 : b ≤ 3) (hc : 0 ≤ c) (hc2 : c ≤ 24)
    (he : 0 ≤ e) (he2 : e ≤ 3) (hyd : 0 ≤ yd)
    (hyd2 : yd < 365 + (if isLeap (cycYear a b c e) = true then 1 else 0))
    (hs : 0 ≤ s) (hs2 : s < 86400) :
    absYearDay ((146097 * a + 36524 * b + 1461 * c + 365 * e + yd) * 86400 + s) =
      (cycYear a b c e, yd) := by
  have hl := isLeap_cycYear a b c e hb hb2 hc hc2 he he2
  have hyd3 : yd ≤ 364 ∨ (yd = 365 ∧ e = 3 ∧ (c < 24 ∨ b = 3)) := by
    by_cases h : isLeap (cycYear a b c e) = true
    · rw [if_pos h] at hyd2
      have := hl.mp h
      omega
    · rw [if_neg h] at hyd2
      omega
  clear hl hyd2
  obtain ⟨R, hR⟩ : ∃ R : Int, R = 365 * e + yd := ⟨_, rfl⟩
  obtain ⟨Q, hQ⟩ : ∃ Q : Int, Q = 1461 * c + R := ⟨_, rfl⟩
  obtain ⟨P, hP⟩ : ∃ P : Int, P = 36524 * b + Q := ⟨_, rfl⟩
  obtain ⟨D, hD⟩ : ∃ D : Int, D = 146097 * a + P := ⟨_, rfl⟩
  have hR2 : 0 ≤ R ∧ (R ≤ 1459 ∨ (R = 1460 ∧ (c < 24 ∨ b = 3))) := by omega
  have hQ2 : 0 ≤ Q ∧ (Q ≤ 36523 ∨ (Q = 36524 ∧ b = 3)) := by omega
  have hP2 : 0 ≤ P ∧ P ≤ 146096 := by omega
  have e0 : 146097 * a + 36524 * b + 1461 * c + 365 * e + yd = D := by omega
  have h1 : (D * 86400 + s) / 86400 = D := by omega
  have h2 : D / 146097 = a := by omega
  have h2r : D - 146097 * a = P := by omega
  have h3 : P / 36524 - P / 36524 / 4 = b := by omega
  have h3r : P - 36524 * b = Q := by omega
  have h4 : Q / 1461 = c := by omega
  have h4r : Q - 1461 * c = R := by omega
  have h5 : R / 365 - R / 365 / 4 = e := by omega
  have h5r : R - 365 * e = yd := by omega
  simp only [absYearDay, secondsPerDay, daysPer400Years, daysPer100Years, daysPer4Years, cycYear]
  norm_num only
  rw [e0, h1, h2, h2r, h3, h3r, h4, h4r, h5, h5r]

theorem daysBefore_lits : daysBefore 0 = 0 ∧ daysBefore 1 = 31 ∧ daysBefore 2 = 59 ∧
    daysBefore 3 = 90 ∧ daysBefore 4 = 120 ∧ daysBefore 5 = 151 ∧ daysBefore 6 = 181 ∧
    daysBefore 7 = 212 ∧ daysBefore 8 = 243 ∧ daysBefore 9 = 273 ∧ daysBefore 10 = 304 ∧
    daysBefore 11 = 334 ∧ daysBefore 12 = 365 := by decide

theorem div31_cases (x : Int) (h0 : 0 ≤ x) (h1 : x < 372) :
    x / 31 = 0 ∨ x / 31 = 1 ∨ x / 31 = 2 ∨ x / 31 = 3 ∨ x / 31 = 4 ∨ x / 31 = 5 ∨ x / 31 = 6 ∨
    x / 31 = 7 ∨ x / 31 = 8 ∨ x / 31 = 9 ∨ x / 31 = 10 ∨ x / 31 = 11 := by omega

theorem monthDayCore_q (x q : Int) (h : x / 31 = q) :
    monthDayCore x = if x ≥ daysBefore (q + 1) then (q + 2, x - daysBefore (q + 1) + 1)
      else (q + 1, x - daysBefore q + 1) := by
  subst h; rfl

theorem monthDayCore_spec (x : Int) (h0 : 0 ≤ x) (h1 : x < 365) :
    1 ≤ (monthDayCore x).1 ∧ (monthDayCore x).1 ≤ 12 ∧
    daysBefore ((monthDayCore x).1 - 1) ≤ x ∧ x < daysBefore (monthDayCore x).1 ∧
    (monthDayCore x).2 = x - daysBefore ((monthDayCore x).1 - 1) + 1 := by
  obtain ⟨d0, d1, d2, d3, d4, d5, d6, d7, d8, d9, d10, d11, d12⟩ := daysBefore_lits
  rcases div31_cases x h0 (by omega) with h | h | h | h | h | h | h | h | h | h | h | h <;>
    rw [monthDayCore_q x _ h] <;>
    norm_num only [d0, d1, d2, d3, d4, d5, d6, d7, d8, d9, d10, d11, d12] <;>
    split_ifs <;>
    norm_num only [d0, d1, d2, d3, d4, d5, d6, d7, d8, d9, d10, d11, d12] <;>
    (try simp only [true_and, and_true]) <;> omega

/-- Facts about the table `daysBefore` around a month `m` in `1..12`. -/
theorem daysBefore_month (m : Int) (hm : 1 ≤ m) (hm2 : m ≤ 12) :
    0 ≤ daysBefore (m - 1) ∧ daysBefore (m - 1) + 28 ≤ daysBefore m ∧ daysBefore m ≤ 365 ∧
    daysBefore m ≤ daysBefore (m - 1) + 31 ∧
    (m ≥ 3 → 59 ≤ daysBefore (m - 1)) ∧ (m = 1 → daysBefore (m - 1) = 0 ∧ daysBefore m = 31) ∧
    (m = 2 → daysBefore (m - 1) = 31 ∧ daysBefore m = 59) := by
  obtain ⟨d0, d1, d2, d3, d4, d5, d6, d7, d8, d9, d10, d11, d12⟩ := daysBefore_lits
  interval_cases m <;>
    norm_num [d0, d1, d2, d3, d4, d5, d6, d7, d8, d9, d10, d11, d12]

theorem monthDayCore_unique (x m : Int) (hm : 1 ≤ m) (hm2 : m ≤ 12)
    (h0 : daysBefore (m - 1) ≤ x) (h1 : x < daysBefore m) :
    monthDayCore x = (m, x - daysBefore (m - 1) + 1) := by
  obtain ⟨d0, d1, d2, d3, d4, d5, d6, d7, d8, d9, d10, d11, d12⟩ := daysBefore_lits
  have hx0 : 0 ≤ x ∧ x < 365 := by
    have := daysBefore_month m hm hm2
    omega
  obtain ⟨a, b, c, d, e⟩ := monthDayCore_spec x hx0.1 hx0.2
  generalize (monthDayCore x) = r at *
  obtain ⟨m2, d2'⟩ := r
  simp only at a b c d e
  have : m2 = m := by
    interval_cases m <;> interval_cases m2 <;>
    norm_num only [d0, d1, d2, d3, d4, d5, d6, d7, d8, d9, d10, d11, d12] at h0 h1 c d ⊢ <;> omega
  subst this
  simp [e]

theorem monthDay_eq (y yd : Int) :
    monthDay y yd = if isLeap y = true ∧ yd = 59 then (2, 29)
      else monthDayCore (if isLeap y = true ∧ yd > 59 then yd - 1 else yd) := by
  rfl

theorem monthDay_yearDay (y m d : Int) (hm : 1 ≤ m) (hm2 : m ≤ 12) (hd : 1 ≤ d)
    (hd2 : d ≤ daysIn m y) :
    monthDay y (yearDay y m d) = (m, d) ∧ 0 ≤ yearDay y m d ∧
      yearDay y m d < 365 + (if isLeap y = true then 1 else 0) := by
  have hb := daysBefore_month m hm hm2
  rw [monthDay_eq]
  by_cases hl : isLeap y = true
  · have hX : yearDay y m d = daysBefore (m - 1) + (if m ≥ 3 then 1 else 0) + (d - 1) := by
      simp [yearDay, hl]
    have hdi : daysIn m y = if m = 2 then 29 else daysBefore m - daysBefore (m - 1) := by
      simp [daysIn, hl]
    rw [hdi] at hd2
    generalize yearDay y m d = X at *
    simp only [hl, true_and, if_true]
    rcases (by omega : m = 1 ∨ m = 2 ∨ m ≥ 3) with h1 | h2 | h3
    · rw [if_neg (by omega : ¬ m = 2)] at hd2
      rw [if_neg (by omega : ¬ m ≥ 3)] at hX
      have c1 : ¬ X = 59 := by omega
      have c2 : ¬ X > 59 := by omega
      rw [if_neg c1, if_neg c2, monthDayCore_unique X m hm hm2 (by omega) (by omega)]
      refine ⟨by rw [Prod.mk.injEq]; omega, by omega, by omega⟩
    · rw [if_pos h2] at hd2
      rw [if_neg (by omega : ¬ m ≥ 3)] at hX
      by_cases h29 : d = 29
      · have c1 : X = 59 := by omega
        rw [if_pos c1]
        refine ⟨by rw [Prod.mk.injEq]; omega, by omega, by omega⟩
      · have c1 : ¬ X = 59 := by omega
        have c2 : ¬ X > 59 := by omega
        rw [if_neg c1, if_neg c2, monthDayCore_unique X m hm hm2 (by omega) (by omega)]
        refine ⟨by rw [Prod.mk.injEq]; omega, by omega, by omega⟩
    · rw [if_neg (by omega : ¬ m = 2)] at hd2
      rw [if_pos h3] at hX
      have c1 : ¬ X = 59 := by omega
      have c2 : X > 59 := by omega
      rw [if_neg c1, if_pos c2, monthDayCore_unique (X - 1) m hm hm2 (by omega) (by omega)]
      refine ⟨by rw [Prod.mk.injEq]; omega, by omega, by omega⟩
  · have hX : yearDay y m d = daysBefore (m - 1) + (d - 1) := by
      simp [yearDay, hl]
    have hdi : daysIn m y = daysBefore m - daysBefore (m - 1) := by
      simp [daysIn, hl]
    rw [hdi] at hd2
    generalize yearDay y m d = X at *
    simp only [hl, Bool.false_eq_true, false_and, if_false, add_zero]
    rw [monthDayCore_unique X m hm hm2 (by omega) (by omega)]
    refine ⟨by rw [Prod.mk.injEq]; omega, by omega, by omega⟩

theorem yearDay_monthDay (y yd : Int) (h0 : 0 ≤ yd)
    (h1 : yd < 365 + (if isLeap y = true then 1 else 0)) :
    1 ≤ (monthDay y yd).1 ∧ (monthDay y yd).1 ≤ 12 ∧ 1 ≤ (monthDay y yd).2 ∧
    (monthDay y yd).2 ≤ daysIn (monthDay y yd).1 y ∧
    yearDay y (monthDay y yd).1 (monthDay y yd).2 = yd := by
  rw [monthDay_eq]
  by_cases hl : isLeap y = true
  · simp only [hl, true_and, if_true] at h1 ⊢
    have hX : ∀ m d, yearDay y m d = daysBefore (m - 1) + (if m ≥ 3 then 1 else 0) + (d - 1) := by
      intro m d; simp [yearDay, hl]
    have hdi : ∀ m, daysIn m y = if m = 2 then 29 else daysBefore m - daysBefore (m - 1) := by
      intro m; simp [daysIn, hl]
    by_cases h59 : yd = 59
    · rw [if_pos h59, hX, hdi]
      have := daysBefore_month 2 (by omega) (by omega)
      norm_num at this ⊢
      omega
    · rw [if_neg h59]
      by_cases hgt : yd > 59
      · rw [if_pos hgt]
        obtain ⟨a, b, c, d, e⟩ := monthDayCore_spec (yd - 1) (by omega) (by omega)
        generalize monthDayCore (yd - 1) = r at *
        obtain ⟨m, dd⟩ := r
        simp only at a b c d e ⊢
        have hb := daysBefore_month m a b
        have hm3 : m ≥ 3 := by
          by_contra hc
          rcases (by omega : m = 1 ∨ m = 2) with h | h
          · have := hb.2.2.2.2.2.1 h; omega
          · have := hb.2.2.2.2.2.2 h; omega
        rw [hX, hdi, if_neg (by omega : ¬ m = 2), if_pos hm3]
        refine ⟨a, b, ?_, ?_, ?_⟩ <;> omega
      · rw [if_neg hgt]
        obtain ⟨a, b, c, d, e⟩ := monthDayCore_spec yd (by omega) (by omega)
        generalize monthDayCore yd = r at *
        obtain ⟨m, dd⟩ := r
        simp only at a b c d e ⊢
        have hb := daysBefore_month m a b
        have hm3 : ¬ m ≥ 3 := by
          intro hc
          have := hb.2.2.2.2.1 hc; omega
        rw [hX, hdi, if_neg hm3]
        rcases (by omega : m = 1 ∨ m = 2) with h | h
        · have := hb.2.2.2.2.2.1 h
          rw [if_neg (by omega : ¬ m = 2)]
          refine ⟨a, b, ?_, ?_, ?_⟩ <;> omega
        · have := hb.2.2.2.2.2.2 h
          rw [if_pos h]
          refine ⟨a, b, ?_, ?_, ?_⟩ <;> omega
  · simp only [hl, Bool.false_eq_true, false_and, if_false, add_zero] at h1 ⊢
    have hX : ∀ m d, yearDay y m d = daysBefore (m - 1) + (d - 1) := by
      intro m d; simp [yearDay, hl]
    have hdi : ∀ m, daysIn m y = daysBefore m - daysBefore (m - 1) := by
      intro m; simp [daysIn, hl]
    obtain ⟨a, b, c, d, e⟩ := monthDayCore_spec yd h0 h1
    generalize monthDayCore yd = r at *
    obtain ⟨m, dd⟩ := r
    simp only at a b c d e ⊢
    rw [hX, hdi]
    refine ⟨a, b, ?_, ?_, ?_⟩ <;> omega

theorem cycDay_exists (D : Int) : ∃ a b c e yd : Int, 0 ≤ b ∧ b ≤ 3 ∧ 0 ≤ c ∧ c ≤ 24 ∧ 0 ≤ e ∧
    e ≤ 3 ∧ 0 ≤ yd ∧ (yd ≤ 364 ∨ (yd = 365 ∧ e = 3 ∧ (c < 24 ∨ b = 3))) ∧
    D = 146097 * a + 36524 * b + 1461 * c + 365 * e + yd := by
  obtain ⟨P, hP⟩ : ∃ P : Int, P = D % 146097 := ⟨_, rfl⟩
  obtain ⟨b, hb⟩ : ∃ b : Int, b = P / 36524 - P / 36524 / 4 := ⟨_, rfl⟩
  obtain ⟨Q, hQ⟩ : ∃ Q : Int, Q = P - 36524 * b := ⟨_, rfl⟩
  obtain ⟨c, hc⟩ : ∃ c : Int, c = Q / 1461 := ⟨_, rfl⟩
  obtain ⟨R, hR⟩ : ∃ R : Int, R = Q - 1461 * c := ⟨_, rfl⟩
  obtain ⟨e, he⟩ : ∃ e : Int, e = R / 365 - R / 365 / 4 := ⟨_, rfl⟩
  have hP2 : 0 ≤ P ∧ P ≤ 146096 := by omega
  have hb2 : 0 ≤ b ∧ b ≤ 3 := by omega
  have hQ2 : 0 ≤ Q ∧ (Q ≤ 36523 ∨ (Q = 36524 ∧ b = 3)) := by omega
  have hc2 : 0 ≤ c ∧ c ≤ 24 := by omega
  have hR2 : 0 ≤ R ∧ (R ≤ 1459 ∨ (R = 1460 ∧ (c < 24 ∨ b = 3))) := by omega
  have he2 : 0 ≤ e ∧ e ≤ 3 := by omega
  refine ⟨D / 146097, b, c, e, R - 365 * e, hb2.1, hb2.2, hc2.1, hc2.2, he2.1, he2.2, ?_, ?_, ?_⟩
  · omega
  · omega
  · omega

/-- The date `absDate` reads off a second count is a date of the calendar, and its day
number is the number of whole days in the count. -/
theorem absDate_days (D s : Int) (hs : 0 ≤ s) (hs2 : s < 86400) :
    1 ≤ (absDate (D * 86400 + s)).2.1 ∧ (absDate (D * 86400 + s)).2.1 ≤ 12 ∧
    1 ≤ (absDate (D * 86400 + s)).2.2 ∧
    (absDate (D * 86400 + s)).2.2 ≤
      daysIn (absDate (D * 86400 + s)).2.1 (absDate (D * 86400 + s)).1 ∧
    daysBeforeYear (absDate (D * 86400 + s)).1 +
      yearDay (absDate (D * 86400 + s)).1 (absDate (D * 86400 + s)).2.1
        (absDate (D * 86400 + s)).2.2 = D := by
  obtain ⟨a, b, c, e, yd, hb, hb2, hc, hc2, he, he2, hyd, hyd2, hD⟩ := cycDay_exists D
  have hl := isLeap_cycYear a b c e hb hb2 hc hc2 he he2
  have hyd3 : yd < 365 + (if isLeap (cycYear a b c e) = true then 1 else 0) := by
    by_cases h : isLeap (cycYear a b c e) = true
    · rw [if_pos h]; omega
    · rw [if_neg h]
      have : ¬ (e = 3 ∧ (c < 24 ∨ b = 3)) := fun hh => h (hl.mpr hh)
      omega
  have h1 := absYearDay_cyc a b c e yd s hb hb2 hc hc2 he he2 hyd hyd3 hs hs2
  rw [← hD] at h1
  have h2 := yearDay_monthDay (cycYear a b c e) yd hyd hyd3
  have h3 := daysBeforeYear_cycYear a b c e hb hb2 hc hc2 he he2
  simp only [absDate, h1]
  refine ⟨h2.1, h2.2.1, h2.2.2.1, h2.2.2.2.1, ?_⟩
  rw [h2.2.2.2.2, h3]
  omega

/-- Reading back the date of a day of the calendar: `absDate` inverts the day count of
`time.Date`. -/
theorem absDate_civil (y m d s : Int) (hm : 1 ≤ m) (hm2 : m ≤ 12) (hd : 1 ≤ d)
    (hd2 : d ≤ daysIn m y) (hs : 0 ≤ s) (hs2 : s < 86400) :
    absDate ((daysBeforeYear y + yearDay y m d) * 86400 + s) = (y, m, d) := by
  obtain ⟨a, b, c, e, hb, hb2, hc, hc2, he, he2, hy⟩ := cycYear_exists y
  obtain ⟨h1, h2, h3⟩ := monthDay_yearDay y m d hm hm2 hd hd2
  subst hy
  have h4 := absYearDay_cyc a b c e _ s hb hb2 hc hc2 he he2 h2 h3 hs hs2
  rw [← daysBeforeYear_cycYear a b c e hb hb2 hc hc2 he he2] at h4
  simp only [absDate, h4, h1]

theorem absClock_midnight (D : Int) : absClock (D * 86400) = (0, 0, 0) := by
  simp only [absClock, secondsPerDay]
  have h : D * 86400 % 86400 = 0 := by omega
  rw [h]
  rfl

theorem absClock_eq (D h mi s : Int) (hh : 0 ≤ h) (hh2 : h < 24) (hmi : 0 ≤ mi) (hmi2 : mi < 60)
    (hs : 0 ≤ s) (hs2 : s < 60) : absClock (D * 86400 + (h * 3600 + mi * 60 + s)) = (h, mi, s) := by
  simp only [absClock, secondsPerDay]
  have e1 : (D * 86400 + (h * 3600 + mi * 60 + s)) % 86400 = h * 3600 + mi * 60 + s := by omega
  rw [e1]
  have e2 : (h * 3600 + mi * 60 + s) / 3600 = h := by omega
  rw [e2]
  have e3 : (h * 3600 + mi * 60 + s - h * 3600) / 60 = mi := by omega
  rw [e3]
  simp only [Prod.mk.injEq, true_and]
  omega

theorem unixToAbsolute_add : unixToAbsolute + (absoluteToInternal + internalToUnix) = 0 := by
  decide

theorem yearDay_succ (y m d : Int) : yearDay y m (d + 1) = yearDay y m d + 1 := by
  unfold yearDay; ring

/-! ## 64-bit arithmetic -/

theorem uint64_of_range (x : Int) (h0 : 0 ≤ x) (h1 : x < 18446744073709551616) :
    uint64 x = x := by
  unfold uint64; omega

theorem int64_of_range (x : Int) (h0 : -9223372036854775808 ≤ x)
    (h1 : x ≤ 9223372036854775807) : int64 x = x := by
  unfold int64; omega

theorem uint64_range (x : Int) : 0 ≤ uint64 x ∧ uint64 x < 18446744073709551616 := by
  unfold uint64; omega

theorem int64_range (x : Int) :
    -9223372036854775808 ≤ int64 x ∧ int64 x ≤ 9223372036854775807 := by
  unfold int64; omega

theorem norm_id (hi lo base : Int) (h0 : 0 ≤ lo) (h1 : lo < base) : norm hi lo base = (hi, lo) := by
  unfold norm
  rw [if_neg (not_lt.mpr h0)]
  simp only
  rw [if_neg (not_le.mpr h1)]

/-- `norm` on months: the year moves by the whole years in the month count. -/
theorem norm_12 (hi lo : Int) (h0 : -4000000000000 ≤ hi) (h1 : hi ≤ 4000000000000)
    (h2 : -4000000000000 ≤ lo) (h3 : lo ≤ 4000000000000) :
    norm hi lo 12 = (hi + lo / 12, lo % 12) := by
  unfold norm
  by_cases hneg : lo < 0
  · rw [if_pos hneg]
    simp only
    rw [if_neg (by omega), int64_of_range _ (by omega) (by omega)]
    rw [Prod.mk.injEq]
    constructor <;> omega
  · rw [if_neg hneg]
    simp only
    by_cases hge : lo ≥ 12
    · rw [if_pos hge, int64_of_range _ (by omega) (by omega)]
      rw [Prod.mk.injEq]
      constructor <;> omega
    · rw [if_neg hge]
      rw [Prod.mk.injEq]
      constructor <;> omega

/-- The exact day count lies between 365 and 366 days per year elapsed. -/
theorem daysBeforeYear_bounds (y : Int) (h : absoluteZeroYear ≤ y) :
    365 * (y - absoluteZeroYear) ≤ daysBeforeYear y ∧
    daysBeforeYear y ≤ 366 * (y - absoluteZeroYear) := by
  obtain ⟨a, b, c, e, hb, hb2, hc, hc2, he, he2, rfl⟩ := cycYear_exists y
  rw [daysBeforeYear_cycYear a b c e hb hb2 hc hc2 he he2]
  unfold cycYear absoluteZeroYear at *
  omega

/-- Within the years Go's `uint64` day count can hold, `daysSinceEpoch` is exact. -/
theorem daysSinceEpoch_eq (y : Int) (h : absoluteZeroYear ≤ y) (h2 : y ≤ 300000000000) :
    daysSinceEpoch y = daysBeforeYear y := by
  obtain ⟨a, b, c, e, hb, hb2, hc, hc2, he, he2, rfl⟩ := cycYear_exists y
  rw [daysBeforeYear_cycYear a b c e hb hb2 hc hc2 he he2]
  unfold cycYear absoluteZeroYear at *
  have ha : 0 ≤ a ∧ a ≤ 1500000000 := by omega
  simp only [daysSinceEpoch, absoluteZeroYear, daysPer400Years, daysPer100Years, daysPer4Years]
  have h1 : (400 * a + 100 * b + 4 * c + e + -292277022399 - -292277022399) =
      400 * a + 100 * b + 4 * c + e := by ring
  rw [h1, uint64_of_range (400 * a + 100 * b + 4 * c + e) (by omega) (by omega)]
  have h2 : (400 * a + 100 * b + 4 * c + e) / 400 = a := by omega
  rw [h2]
  have h3 : (400 * a + 100 * b + 4 * c + e - 400 * a) / 100 = b := by omega
  rw [h3]
  have h4 : (400 * a + 100 * b + 4 * c + e - 400 * a - 100 * b) / 4 = c := by omega
  rw [h4]
  norm_num only
  rw [uint64_of_range (146097 * a) (by omega) (by omega),
    uint64_of_range (146097 * a + 36524 * b) (by omega) (by omega),
    uint64_of_range (146097 * a + 36524 * b + 1461 * c) (by omega) (by omega),
    uint64_of_range _ (by omega) (by omega)]
  omega

theorem uint64_add_conv (a x : Int) : uint64 (a + uint64 (int64 x)) = uint64 (a + x) := by
  unfold uint64 int64; omega

theorem uint64_add_uint64 (a x : Int) : uint64 (a + uint64 x) = uint64 (a + x) := by
  unfold uint64; omega

theorem int64_int64_add (x c : Int) : int64 (int64 x + c) = int64 (x + c) := by
  unfold int64; omega

theorem unixToAbsolute_val : unixToAbsolute = 9223372028715321600 := by decide

theorem toUnix_val : absoluteToInternal + internalToUnix = -9223372028715321600 := by decide

theorem yearDay_bounds (y m d : Int) (hm : 1 ≤ m) (hm2 : m ≤ 12) :
    d - 1 ≤ yearDay y m d ∧ yearDay y m d ≤ d + 340 := by
  have hb := daysBefore_month m hm hm2
  unfold yearDay
  split_ifs <;> omega

/-- The second count of `time.Date` when nothing wraps: the month count is folded into the
year, and the days before that year, before the month and before the day are added up. -/
theorem civilUnix_exact (y m d h mi s : Int)
    (hy : -300000000000 ≤ y ∧ y ≤ 300000000000) (hm : -300000000000 ≤ m ∧ m ≤ 300000000000)
    (hy' : absoluteZeroYear ≤ y + (m - 1) / 12 ∧ y + (m - 1) / 12 ≤ 300000000000)
    (hh : 0 ≤ h ∧ h < 24) (hmi : 0 ≤ mi ∧ mi < 60) (hs : 0 ≤ s ∧ s < 60)
    (hD : 0 ≤ daysBeforeYear (y + (m - 1) / 12) + yearDay (y + (m - 1) / 12) ((m - 1) % 12 + 1) d)
    (hD2 : daysBeforeYear (y + (m - 1) / 12) + yearDay (y + (m - 1) / 12) ((m - 1) % 12 + 1) d
      ≤ 200000000000000) :
    civilUnix y m d h mi s =
      (daysBeforeYear (y + (m - 1) / 12) + yearDay (y + (m - 1) / 12) ((m - 1) % 12 + 1) d) *
        86400 + (h * 3600 + mi * 60 + s) - unixToAbsolute := by
  have hm' : 0 ≤ (m - 1) % 12 ∧ (m - 1) % 12 < 12 := by omega
  have hdb := daysBeforeYear_bounds _ hy'.1
  have hyd := yearDay_bounds (y + (m - 1) / 12) ((m - 1) % 12 + 1) d (by omega) (by omega)
  generalize hY : y + (m - 1) / 12 = Y at *
  generalize hM : (m - 1) % 12 = M at *
  unfold civilUnix
  dsimp only
  rw [int64_of_range (m - 1) (by omega) (by omega), norm_12 y (m - 1) (by omega) (by omega)
    (by omega) (by omega), hY, hM]
  dsimp only
  rw [norm_id mi s 60 hs.1 hs.2]
  dsimp only
  rw [norm_id h mi 60 hmi.1 hmi.2]
  dsimp only
  rw [norm_id d h 24 hh.1 hh.2]
  dsimp only
  rw [daysSinceEpoch_eq Y hy'.1 hy'.2]
  have e1 : M + 1 - 1 = M := by ring
  rw [e1]
  have hbm := daysBefore_month (M + 1) (by omega) (by omega)
  rw [e1] at hbm
  unfold yearDay at hD hD2 hyd ⊢
  rw [e1] at hD hD2 hyd ⊢
  rw [toUnix_val, unixToAbsolute_val, secondsPerDay]
  unfold absoluteZeroYear at hy' hdb
  generalize daysBeforeYear Y = B at *
  generalize daysBefore M = Q at *
  have hB : 0 ≤ B := by omega
  rw [uint64_of_range (B + Q) (by omega) (by omega)]
  split_ifs with hl
  · rw [if_pos hl] at hD hD2 hyd
    rw [uint64_of_range (B + Q + 1) (by omega) (by omega), uint64_add_conv,
      uint64_of_range (B + Q + 1 + (d - 1)) (by omega) (by omega),
      uint64_of_range ((B + Q + 1 + (d - 1)) * 86400) (by omega) (by omega),
      uint64_add_uint64, uint64_of_range _ (by omega) (by omega), int64_int64_add,
      int64_of_range _ (by omega) (by omega)]
    ring
  · rw [if_neg hl] at hD hD2 hyd
    rw [uint64_add_conv,
      uint64_of_range (B + Q + (d - 1)) (by omega) (by omega),
      uint64_of_range ((B + Q + (d - 1)) * 86400) (by omega) (by omega),
      uint64_add_uint64, uint64_of_range _ (by omega) (by omega), int64_int64_add,
      int64_of_range _ (by omega) (by omega)]
    ring

/-- The second count of `time.Date` for a month in `1..12`, when nothing wraps. -/
theorem civilUnix_valid (y m d h mi s : Int) (hy : absoluteZeroYear ≤ y ∧ y ≤ 300000000000)
    (hm : 1 ≤ m ∧ m ≤ 12) (hh : 0 ≤ h ∧ h < 24) (hmi : 0 ≤ mi ∧ mi < 60) (hs : 0 ≤ s ∧ s < 60)
    (hD : 0 ≤ daysBeforeYear y + yearDay y m d)
    (hD2 : daysBeforeYear y + yearDay y m d ≤ 200000000000000) :
    civilUnix y m d h mi s =
      (daysBeforeYear y + yearDay y m d) * 86400 + (h * 3600 + mi * 60 + s) - unixToAbsolute := by
  have e1 : y + (m - 1) / 12 = y := by omega
  have e2 : (m - 1) % 12 + 1 = m := by omega
  have := civilUnix_exact y m d h mi s (by unfold absoluteZeroYear at hy; omega) (by omega)
    (by rw [e1]; exact hy) hh hmi hs (by rw [e1, e2]; exact hD) (by rw [e1, e2]; exact hD2)
  rw [e1, e2] at this
  exact this

/-- Year, month and day numbers in range give a day far from the ends of the range of
days that `time.Date` can count. -/
theorem dayIndex_range (y m d : Int) (h : fieldsInRange y m d) :
    60000000000000 ≤ dayIndex y m d ∧ dayIndex y m d ≤ 160000000000000 := by
  obtain ⟨hy, hm, hd⟩ := h
  have hy' : absoluteZeroYear ≤ y + (m - 1) / 12 := by unfold absoluteZeroYear; omega
  have hdb := daysBeforeYear_bounds _ hy'
  have hyd := yearDay_bounds (y + (m - 1) / 12) ((m - 1) % 12 + 1) d (by omega) (by omega)
  unfold dayIndex
  unfold absoluteZeroYear at hdb hy'
  generalize daysBeforeYear (y + (m - 1) / 12) = B at *
  generalize yearDay (y + (m - 1) / 12) ((m - 1) % 12 + 1) d = Q at *
  omega

theorem dayIndex_add (y m d i : Int) : dayIndex y m (d + i) = dayIndex y m d + i := by
  unfold dayIndex yearDay; ring

/-- The second count of `time.Date` at midnight, for a year and a month number in range
and any day number that gives a day `time.Date` can count. -/
theorem civilUnix_midnight (y m d : Int) (hy : -100000000000 ≤ y ∧ y ≤ 100000000000)
    (hm : -100000000000 ≤ m ∧ m ≤ 100000000000) (hD : 0 ≤ dayIndex y m d)
    (hD2 : dayIndex y m d ≤ 200000000000000) :
    civilUnix y m d 0 0 0 = dayIndex y m d * 86400 - unixToAbsolute := by
  have := civilUnix_exact y m d 0 0 0 (by omega) (by omega)
    (by unfold absoluteZeroYear; omega) (by omega) (by omega) (by omega) hD hD2
  rw [this]
  unfold dayIndex
  ring

theorem daysIn_le_31 (m y : Int) (hm : 1 ≤ m) (hm2 : m ≤ 12) : daysIn m y ≤ 31 := by
  have := daysBefore_month m hm hm2
  unfold daysIn
  split_ifs <;> omega

theorem zoned_UTC (u : Int) : zoned u UTC = ⟨u, UTC⟩ := by
  unfold zoned UTC
  simp

/-- The location of `zoned` is the given one, and its instant lies within `2^31` seconds
of the wall clock. -/
theorem zoned_spec (u : Int) (loc : Location) (hu : -9223372030000000000 ≤ u)
    (hu2 : u ≤ 9000000000000000000) :
    (zoned u loc).loc = loc ∧ u - 2147483647 ≤ (zoned u loc).unix ∧
      (zoned u loc).unix ≤ u + 2147483648 := by
  unfold zoned
  dsimp only
  have h1 := loc.offset_int32 u
  have h2 := loc.offset_int32 (int64 (u - (loc.lookup u).offset))
  split_ifs with hz hc
  · dsimp only
    rw [int64_of_range _ (by omega) (by omega)]
    exact ⟨rfl, by omega, by omega⟩
  · dsimp only
    rw [int64_of_range _ (by omega) (by omega)]
    exact ⟨rfl, by omega, by omega⟩
  · dsimp only
    exact ⟨rfl, by omega, by omega⟩

theorem unixToInternal_val : unixToInternal = 62135596800 := by decide

theorem abs_const : unixToInternal + internalToAbsolute = unixToAbsolute := rfl

/-- The year of a date of the calendar whose day number `time.Date` can count lies in the
range of years in which `daysSinceEpoch` is exact. -/
theorem year_range_of_day (y m d D : Int) (hm : 1 ≤ m) (hm2 : m ≤ 12) (hd : 1 ≤ d)
    (hd2 : d ≤ daysIn m y) (hD : daysBeforeYear y + yearDay y m d = D) (h0 : 0 ≤ D)
    (h1 : D ≤ 200000000000000) : absoluteZeroYear ≤ y ∧ y ≤ 300000000000 := by
  obtain ⟨-, hy0, hy1⟩ := monthDay_yearDay y m d hm hm2 hd hd2
  have hy2 : yearDay y m d ≤ 365 := by
    split_ifs at hy1 <;> omega
  obtain ⟨a, b, c, e, hb, hb2, hc, hc2, he, he2, rfl⟩ := cycYear_exists y
  rw [daysBeforeYear_cycYear a b c e hb hb2 hc hc2 he he2] at hD
  unfold cycYear absoluteZeroYear
  generalize yearDay (cycYear a b c e) m d = Q at *
  clear hd2 hy1
  have ha : 0 ≤ a := by
    by_contra hneg
    have h2 : a ≤ -1 := by omega
    omega
  have ha2 : a ≤ 1400000000 := by omega
  constructor <;> omega

/-- A time whose wall clock is midnight of day `D`: its calendar fields are those of day
`D`, and `AddDate(0, 0, 1)` is what `time.Date` gives for midnight of day `D + 1`. -/
theorem step_midnight (t : Time) (D : Int) (hD0 : 0 ≤ D) (hD1 : D + 1 ≤ 200000000000000)
    (hw : t.wall = D * 86400 - unixToAbsolute) :
    t.Date = absDate (D * 86400) ∧
      t.AddDate 0 0 1 = zoned ((D + 1) * 86400 - unixToAbsolute) t.loc := by
  have habs : t.abs = D * 86400 := by
    unfold Time.abs
    unfold Time.wall at hw
    rw [abs_const, hw, unixToAbsolute_val]
    have e : D * 86400 - 9223372028715321600 + 9223372028715321600 = D * 86400 := by ring
    rw [e, uint64_of_range _ (by omega) (by omega)]
  have hdate : t.Date = absDate (D * 86400) := by
    unfold Time.Date; rw [habs]
  refine ⟨hdate, ?_⟩
  unfold Time.AddDate
  have hclock : t.Clock = (0, 0, 0) := by
    unfold Time.Clock; rw [habs]; exact absClock_midnight D
  rw [hclock, hdate]
  obtain ⟨v1, v2, v3, v4, v5⟩ := absDate_days D 0 (le_refl 0) (by norm_num)
  rw [add_zero] at v1 v2 v3 v4 v5
  generalize absDate (D * 86400) = r at *
  obtain ⟨y, m, d⟩ := r
  dsimp only at v1 v2 v3 v4 v5 ⊢
  have hyr := year_range_of_day y m d D v1 v2 v3 v4 v5 hD0 (by omega)
  have hdi := daysIn_le_31 m y v1 v2
  have hy64 : int64 (y + 0) = y := by
    rw [add_zero]; unfold absoluteZeroYear at hyr; exact int64_of_range _ (by omega) (by omega)
  have hm64 : int64 (m + 0) = m := by
    rw [add_zero]; exact int64_of_range _ (by omega) (by omega)
  have hd64 : int64 (d + 1) = d + 1 := int64_of_range _ (by omega) (by omega)
  rw [hy64, hm64, hd64]
  unfold time.Date
  rw [civilUnix_valid y m (d + 1) 0 0 0 hyr ⟨v1, v2⟩ (by omega) (by omega) (by omega)
    (by rw [yearDay_succ]; omega) (by rw [yearDay_succ]; omega)]
  rw [yearDay_succ]
  congr 1
  rw [← v5]; ring

end time

/-! ## Decimal digits -/

namespace strconv

end strconv

open time

theorem DateStringToTime_fields (db : TZData) (date tz : String)
    (y m d : Int) (h : dateFields date = some (y, m, d)) :
    DateStringToTime db date tz =
      match LoadLocation db tz with
      | Except.error err => (Time.zero, some err)
      | Except.ok location => (time.Date y m d 0 0 0 location, none) := by
  unfold dateFields at h
  unfold DateStringToTime
  split at h
  · rename_i ys ms ds heq
    dsimp only
    split at h
    · rename_i y' m' d' hy hm hd
      simp only [Option.some.injEq, Prod.mk.injEq] at h
      obtain ⟨rfl, rfl, rfl⟩ := h
      simp only [hy, hm, hd]
    · exact absurd h (by simp)
  · exact absurd h (by simp)

theorem datesLoop_mono : ∀ (f : Nat) (today d2 : Time) (acc r : List Date),
    datesLoop f today d2 acc = some r → ∀ f', f ≤ f' → datesLoop f' today d2 acc = some r := by
  intro f
  induction f with
  | zero =>
    intro today d2 acc r h f' _
    unfold datesLoop at h
    split at h
    · exact absurd h (by simp)
    · rename_i hc
      cases f' <;> simp only [datesLoop, hc] <;> exact h
  | succ f ih =>
    intro today d2 acc r h f' hf
    obtain ⟨g, rfl⟩ : ∃ g, f' = g + 1 := ⟨f' - 1, by omega⟩
    unfold datesLoop at h ⊢
    split at h
    · rename_i hc
      rw [if_pos hc]
      exact ih _ _ _ _ h g (by omega)
    · rename_i hc
      rw [if_neg hc]
      exact h

theorem DatesInBetween_mono (db : TZData) (t : Timespan) (f : Nat)
    (r : List Date × Option Error) (h : t.DatesInBetween db f = some r) (f' : Nat) (hf : f ≤ f') :
    t.DatesInBetween db f' = some r := by
  unfold Timespan.DatesInBetween at h ⊢
  dsimp only at h ⊢
  split at h
  · exact h
  · split at h
    · exact h
    · split at h
      · exact absurd h (by simp)
      · rename_i dates hd
        rw [datesLoop_mono _ _ _ _ _ hd f' hf]
        exact h

/-! ## The day-by-day loop -/

/-- The stored seconds of what `time.Date` gives for midnight of a day it can count. -/
theorem sec_zoned (D : Int) (loc : Location) (h0 : 0 ≤ D) (h1 : D ≤ 200000000000000) :
    (zoned (D * 86400 - unixToAbsolute) loc).sec =
      (zoned (D * 86400 - unixToAbsolute) loc).unix + unixToInternal := by
  have hz := zoned_spec (D * 86400 - unixToAbsolute) loc
    (by rw [unixToAbsolute_val]; omega) (by rw [unixToAbsolute_val]; omega)
  unfold Time.sec
  rw [unixToAbsolute_val] at hz ⊢
  rw [unixToInternal_val]
  exact int64_of_range _ (by omega) (by omega)

/-- The loop of `DatesInBetween` from midnight of day `D` to midnight of day `D2`, in a
location in which `time.Date` finds the midnight of every day from `D1` to `D2` and puts
the midnight of each of these days before that of the next day: the dates of the days
from `D` to `D2` are appended. -/
theorem datesLoop_midnights (loc : Location) (D1 D2 : Int) (hD1 : 0 ≤ D1) (hD12 : D1 ≤ D2)
    (hD2 : D2 + 1 ≤ 200000000000000)
    (hmid : ∀ D, D1 ≤ D → D ≤ D2 →
      (zoned (D * 86400 - unixToAbsolute) loc).wall = D * 86400 - unixToAbsolute)
    (hinc : ∀ D, D1 ≤ D → D ≤ D2 →
      (zoned (D * 86400 - unixToAbsolute) loc).unix <
        (zoned ((D + 1) * 86400 - unixToAbsolute) loc).unix) :
    ∀ (n : Nat) (D : Int) (acc : List Date) (fuel : Nat), D1 ≤ D → D + n = D2 + 1 → n ≤ fuel →
      datesLoop fuel (zoned (D * 86400 - unixToAbsolute) loc)
        (zoned (D2 * 86400 - unixToAbsolute) loc) acc =
        some (acc ++ (List.range n).map
          (fun i : Nat => Date.ofUnix ((D + (i : Int)) * 86400 - unixToAbsolute))) := by
  have hmono : ∀ (k : Nat) (D : Int), D1 ≤ D → D + k ≤ D2 + 1 →
      (zoned (D * 86400 - unixToAbsolute) loc).unix ≤
        (zoned ((D + k) * 86400 - unixToAbsolute) loc).unix := by
    intro k
    induction k with
    | zero => intro D _ _; simp
    | succ k ih =>
      intro D h1 h2
      have a1 := ih D h1 (by push_cast at h2 ⊢; omega)
      have a2 := hinc (D + k) (by omega) (by push_cast at h2; omega)
      have e : D + (k : Int) + 1 = D + ((k + 1 : Nat) : Int) := by push_cast; ring
      rw [e] at a2
      omega
  intro n
  induction n with
  | zero =>
    intro D acc fuel h1 h2 _
    have hD : D = D2 + 1 := by simpa using h2
    subst hD
    have hlt := hinc D2 (by omega) (le_refl _)
    have hcond : ((zoned ((D2 + 1) * 86400 - unixToAbsolute) loc).Before
          (zoned (D2 * 86400 - unixToAbsolute) loc) ||
        (zoned ((D2 + 1) * 86400 - unixToAbsolute) loc).Equal
          (zoned (D2 * 86400 - unixToAbsolute) loc)) = false := by
      simp only [Time.Before, Time.Equal, Bool.or_eq_false_iff, decide_eq_false_iff_not]
      rw [sec_zoned (D2 + 1) loc (by omega) (by omega), sec_zoned D2 loc (by omega) (by omega)]
      constructor <;> omega
    cases fuel <;> simp [datesLoop, hcond]
  | succ n ih =>
    intro D acc fuel h1 h2 hf
    have hle : D ≤ D2 := by push_cast at h2; omega
    have hm := hmono (D2 - D).toNat D h1 (by omega)
    have e : D + ((D2 - D).toNat : Int) = D2 := by omega
    rw [e] at hm
    have hcond : ((zoned (D * 86400 - unixToAbsolute) loc).Before
          (zoned (D2 * 86400 - unixToAbsolute) loc) ||
        (zoned (D * 86400 - unixToAbsolute) loc).Equal
          (zoned (D2 * 86400 - unixToAbsolute) loc)) = true := by
      simp only [Time.Before, Time.Equal, Bool.or_eq_true, decide_eq_true_eq]
      rw [sec_zoned D loc (by omega) (by omega), sec_zoned D2 loc (by omega) (by omega)]
      omega
    obtain ⟨f, rfl⟩ : ∃ f, fuel = f + 1 := ⟨fuel - 1, by omega⟩
    have hloc : (zoned (D * 86400 - unixToAbsolute) loc).loc = loc :=
      (zoned_spec _ loc (by rw [unixToAbsolute_val]; omega)
        (by rw [unixToAbsolute_val]; omega)).1
    have hs := step_midnight (zoned (D * 86400 - unixToAbsolute) loc) D (by omega) (by omega)
      (hmid D h1 hle)
    rw [hloc] at hs
    have hof : Date.ofUnix (D * 86400 - unixToAbsolute) = ⟨(absDate (D * 86400)).1,
        (absDate (D * 86400)).2.1, (absDate (D * 86400)).2.2⟩ := by
      unfold Date.ofUnix
      have e2 : D * 86400 - unixToAbsolute + unixToAbsolute = D * 86400 := by ring
      rw [e2]
    rw [datesLoop, if_pos hcond]
    dsimp only
    rw [hs.2, hs.1]
    rw [ih (D + 1) _ f (by omega) (by push_cast at h2 ⊢; omega) (by omega)]
    rw [List.range_succ_eq_map, List.map_cons, List.map_map]
    simp only [List.append_assoc, List.singleton_append, Option.some.injEq,
      List.append_cancel_left_eq, List.cons.injEq]
    constructor
    · rw [← hof]; simp
    · apply List.map_congr_left
      intro i _
      simp only [Function.comp, Nat.succ_eq_add_one]
      congr 2
      push_cast
      ring

/-! ## Parsing a date string -/

theorem utcMidnight_eq (y m d : Int) : utcMidnight y m d = civilUnix y m d 0 0 0 := by
  unfold utcMidnight Time.Unix time.Date
  rw [zoned_UTC]

/-- Midnight UTC of a day with fields in range is the start of day `dayIndex`. -/
theorem utcMidnight_dayIndex (y m d : Int) (h : fieldsInRange y m d) :
    utcMidnight y m d = dayIndex y m d * 86400 - unixToAbsolute := by
  have hr := dayIndex_range y m d h
  rw [utcMidnight_eq, civilUnix_midnight y m d h.1 h.2.1 (by omega) (by omega)]

theorem Date.ofUnix_spec (u D : Int) (h : u + unixToAbsolute = D * 86400) :
    (Date.ofUnix u).Valid ∧ (Date.ofUnix u).dayNumber = D := by
  obtain ⟨v1, v2, v3, v4, v5⟩ := absDate_days D 0 (le_refl 0) (by norm_num)
  rw [add_zero] at v1 v2 v3 v4 v5
  unfold Date.ofUnix Date.Valid Date.dayNumber
  rw [h]
  exact ⟨⟨v1, v2, v3, v4⟩, v5⟩

theorem dayIndex_valid (y m d : Int) (hm : 1 ≤ m) (hm2 : m ≤ 12) :
    dayIndex y m d = daysBeforeYear y + yearDay y m d := by
  have e1 : y + (m - 1) / 12 = y := by omega
  have e2 : (m - 1) % 12 + 1 = m := by omega
  unfold dayIndex
  rw [e1, e2]

/-- Midnight UTC of a date of the calendar falls on that date. -/
theorem Date.ofUnix_utcMidnight (y m d : Int) (hv : Date.Valid ⟨y, m, d⟩)
    (hr : fieldsInRange y m d) : Date.ofUnix (utcMidnight y m d) = ⟨y, m, d⟩ := by
  obtain ⟨v1, v2, v3, v4⟩ := hv
  dsimp only at v1 v2 v3 v4
  unfold Date.ofUnix
  rw [utcMidnight_dayIndex y m d hr, dayIndex_valid y m d v1 v2]
  have e : (daysBeforeYear y + yearDay y m d) * 86400 - unixToAbsolute + unixToAbsolute =
      (daysBeforeYear y + yearDay y m d) * 86400 + 0 := by ring
  rw [e, absDate_civil y m d 0 v1 v2 v3 v4 (le_refl 0) (by norm_num)]

/-- `DateStringToTime` on a string with three integer components, in a zone that
resolves: what `time.Date` gives for the wall clock at midnight UTC of the day. -/
theorem DateStringToTime_zoned (db : TZData) (date tz : String) (y m d : Int) (loc : Location)
    (h : dateFields date = some (y, m, d)) (hloc : LoadLocation db tz = Except.ok loc) :
    DateStringToTime db date tz = (zoned (utcMidnight y m d) loc, none) := by
  rw [DateStringToTime_fields db date tz y m d h, hloc, utcMidnight_eq]
  rfl

/-- In a location in which `time.Date` finds the midnight of every day from the start day
to the end day and puts them in order before that of the day after the end day,
`DatesInBetween` returns the calendar dates of the `n + 1` days from the start day on. -/
theorem DatesInBetween_midnights (db : TZData) (t : Timespan)
    (loc : Location) (y1 m1 d1 y2 m2 d2 : Int) (n fuel : Nat)
    (hs : dateFields t.StartDate = some (y1, m1, d1))
    (he : dateFields t.EndDate = some (y2, m2, d2))
    (hr1 : fieldsInRange y1 m1 d1) (hr2 : fieldsInRange y2 m2 d2)
    (hloc : LoadLocation db t.Timezone = Except.ok loc)
    (hn : utcMidnight y2 m2 d2 = utcMidnight y1 m1 d1 + 86400 * (n : Int))
    (hmid : ∀ i : Nat, i ≤ n → (zoned (utcMidnight y1 m1 d1 + 86400 * (i : Int)) loc).wall =
      utcMidnight y1 m1 d1 + 86400 * (i : Int))
    (hinc : ∀ i : Nat, i ≤ n → (zoned (utcMidnight y1 m1 d1 + 86400 * (i : Int)) loc).unix <
      (zoned (utcMidnight y1 m1 d1 + 86400 * ((i : Int) + 1)) loc).unix)
    (hfuel : n < fuel) :
    t.DatesInBetween db fuel = some ((List.range (n + 1)).map
      (fun i : Nat => Date.ofUnix (utcMidnight y1 m1 d1 + 86400 * (i : Int))), none) := by
  have hst := DateStringToTime_zoned db t.StartDate t.Timezone y1 m1 d1 loc hs hloc
  have hen := DateStringToTime_zoned db t.EndDate t.Timezone y2 m2 d2 loc he hloc
  have e1 := utcMidnight_dayIndex y1 m1 d1 hr1
  have e2 := utcMidnight_dayIndex y2 m2 d2 hr2
  have b1 := dayIndex_range y1 m1 d1 hr1
  have b2 := dayIndex_range y2 m2 d2 hr2
  rw [e1, e2] at hn
  rw [e1] at hmid hinc
  rw [e1] at hst ⊢
  rw [e2] at hen
  generalize dayIndex y1 m1 d1 = D1 at *
  generalize dayIndex y2 m2 d2 = D2 at *
  have hD : D2 = D1 + n := by omega
  have key : ∀ i : Int, D1 * 86400 - unixToAbsolute + 86400 * i =
      (D1 + i) * 86400 - unixToAbsolute := by intro i; ring
  have hloop := datesLoop_midnights loc D1 D2 (by omega) (by omega) (by omega)
    (by
      intro D h1 h2
      have := hmid (D - D1).toNat (by omega)
      rw [key] at this
      have e : D1 + ((D - D1).toNat : Int) = D := by omega
      rw [e] at this
      exact this)
    (by
      intro D h1 h2
      have := hinc (D - D1).toNat (by omega)
      rw [key, key] at this
      have e : D1 + ((D - D1).toNat : Int) = D := by omega
      have e' : D1 + (((D - D1).toNat : Int) + 1) = D + 1 := by omega
      rw [e, e'] at this
      exact this)
    (n + 1) D1 [] fuel (le_refl _) (by push_cast; omega) (by omega)
  unfold Timespan.DatesInBetween Timespan.startDateToTime Timespan.endDateToTime
  rw [hst, hen]
  dsimp only
  rw [hloop]
  simp only [List.nil_append, key]

namespace strconv

end strconv

namespace strings

end strings

/-! ## The year field of the layout -/

/-- C1 (amended): when the start and end date strings have three integer components
between `-10^11` and `10^11`, the time zone resolves, the end day is `n` days after the
start day, `time.Date` finds the local midnight of every day from the start day through
the end day (the time it returns shows 00:00:00 of that day on the local clock), and the
instant it returns for each of these days is strictly before the one it returns for the
following day, then with more than `n` units of fuel `DatesInBetween` returns without
error the `n + 1` calendar days from the start day through the end day: the entry `i` is
the calendar date `i` days after the start day, a date of the calendar whose day number is
that of the first entry plus `i`; no date occurs twice, the first entry is the start day
and the last is the end day (the dates written in the strings when these name days of the
calendar). -/
theorem C1_DatesInBetween_closed_range (db : TZData) (t : Timespan)
    (loc : Location) (y1 m1 d1 y2 m2 d2 : Int) (n fuel : Nat)
    (hs : dateFields t.StartDate = some (y1, m1, d1))
    (he : dateFields t.EndDate = some (y2, m2, d2))
    (hr1 : fieldsInRange y1 m1 d1) (hr2 : fieldsInRange y2 m2 d2)
    (hloc : LoadLocation db t.Timezone = Except.ok loc)
    (hn : utcMidnight y2 m2 d2 = utcMidnight y1 m1 d1 + 86400 * (n : Int))
    (hmid : ∀ i : Nat, i ≤ n → (zoned (utcMidnight y1 m1 d1 + 86400 * (i : Int)) loc).wall =
      utcMidnight y1 m1 d1 + 86400 * (i : Int))
    (hinc : ∀ i : Nat, i ≤ n → (zoned (utcMidnight y1 m1 d1 + 86400 * (i : Int)) loc).unix <
      (zoned (utcMidnight y1 m1 d1 + 86400 * ((i : Int) + 1)) loc).unix)
    (hfuel : n < fuel) :
    ∃ dates : List Date, t.DatesInBetween db fuel = some (dates, none) ∧
      dates.length = n + 1 ∧
      (∀ (i : Nat) (h : i < dates.length),
        dates.get ⟨i, h⟩ = Date.ofUnix (utcMidnight y1 m1 d1 + 86400 * (i : Int)) ∧
        (dates.get ⟨i, h⟩).Valid ∧
        (dates.get ⟨i, h⟩).dayNumber = (Date.ofUnix (utcMidnight y1 m1 d1)).dayNumber + i) ∧
      dates.Nodup ∧
      dates.head? = some (Date.ofUnix (utcMidnight y1 m1 d1)) ∧
      dates.getLast? = some (Date.ofUnix (utcMidnight y2 m2 d2)) ∧
      (Date.Valid ⟨y1, m1, d1⟩ → dates.head? = some ⟨y1, m1, d1⟩) ∧
      (Date.Valid ⟨y2, m2, d2⟩ → dates.getLast? = some ⟨y2, m2, d2⟩) := by
  have hD1 : utcMidnight y1 m1 d1 + unixToAbsolute = dayIndex y1 m1 d1 * 86400 := by
    rw [utcMidnight_dayIndex y1 m1 d1 hr1]; ring
  generalize dayIndex y1 m1 d1 = D1 at hD1
  have hday : ∀ i : Nat, (Date.ofUnix (utcMidnight y1 m1 d1 + 86400 * (i : Int))).Valid ∧
      (Date.ofUnix (utcMidnight y1 m1 d1 + 86400 * (i : Int))).dayNumber = D1 + i :=
    fun i => Date.ofUnix_spec _ (D1 + i) (by linarith)
  have hday0 : (Date.ofUnix (utcMidnight y1 m1 d1)).dayNumber = D1 :=
    (Date.ofUnix_spec _ D1 hD1).2
  refine ⟨(List.range (n + 1)).map
    (fun i : Nat => Date.ofUnix (utcMidnight y1 m1 d1 + 86400 * (i : Int))),
    ?_, ?_, ?_, ?_, ?_, ?_, ?_, ?_⟩
  · exact DatesInBetween_midnights db t loc y1 m1 d1 y2 m2 d2 n fuel hs he hr1 hr2 hloc hn
      hmid hinc hfuel
  · simp
  · intro i h
    simp only [List.get_eq_getElem, List.getElem_map, List.getElem_range]
    exact ⟨trivial, (hday i).1, by rw [(hday i).2, hday0]⟩
  · apply List.Nodup.map_on _ (List.nodup_range _)
    intro i _ j _ hij
    have h1 := (hday i).2
    rw [hij, (hday j).2] at h1
    omega
  · rw [List.range_succ_eq_map]
    simp
  · rw [List.range_succ]
    simp [hn]
  · intro hv
    rw [List.range_succ_eq_map]
    simp [Date.ofUnix_utcMidnight y1 m1 d1 hv hr1]
  · intro hv
    rw [List.range_succ]
    simp [← hn, Date.ofUnix_utcMidnight y2 m2 d2 hv hr2]

/-- C1, witness: in `Asia/Jakarta` the range 2020-07-10 to 2020-07-14 gives exactly the five
dates 10, 11, 12, 13 and 14 July 2020; and in `America/New_York` the range 2020-03-07 to
2020-03-09, over which the UTC offset changes (at 02:00 of 8 March) while every midnight
exists, gives exactly 7, 8 and 9 March 2020. -/
theorem C1_DatesInBetween_closed_range_witness :
    Timespan.DatesInBetween tzdb 5
      ⟨"2020-07-10", "2020-07-14", "08:00:00", "22:00:00", "Asia/Jakarta"⟩ =
      some ([⟨2020, 7, 10⟩, ⟨2020, 7, 11⟩, ⟨2020, 7, 12⟩, ⟨2020, 7, 13⟩, ⟨2020, 7, 14⟩],
        none) ∧
    Timespan.DatesInBetween tzdb 3
      ⟨"2020-03-07", "2020-03-09", "08:00:00", "22:00:00", "America/New_York"⟩ =
      some ([⟨2020, 3, 7⟩, ⟨2020, 3, 8⟩, ⟨2020, 3, 9⟩], none) := by
  have e1 : utcMidnight 2020 7 10 = 1594339200 := by decide
  have e2 : utcMidnight 2020 7 14 = 1594684800 := by decide
  have e3 : utcMidnight 2020 3 7 = 1583539200 := by decide
  have e4 : utcMidnight 2020 3 9 = 1583712000 := by decide
  obtain ⟨dates, h, hlen, hget, -⟩ := C1_DatesInBetween_closed_range tzdb
    ⟨"2020-07-10", "2020-07-14", "08:00:00", "22:00:00", "Asia/Jakarta"⟩ jakarta
    2020 7 10 2020 7 14 4 5 (by decide) (by decide)
    (by unfold fieldsInRange; decide) (by unfold fieldsInRange; decide) rfl
    (by rw [e1, e2]; norm_num)
    (by intro i hi; rw [e1]; interval_cases i <;> decide)
    (by intro i hi; rw [e1]; interval_cases i <;> decide)
    (by norm_num)
  obtain ⟨dates', h', hlen', hget', -⟩ := C1_DatesInBetween_closed_range tzdb
    ⟨"2020-03-07", "2020-03-09", "08:00:00", "22:00:00", "America/New_York"⟩ newYork
    2020 3 7 2020 3 9 2 3 (by decide) (by decide)
    (by unfold fieldsInRange; decide) (by unfold fieldsInRange; decide) rfl
    (by rw [e3, e4]; norm_num)
    (by intro i hi; rw [e3]; interval_cases i <;> decide)
    (by intro i hi; rw [e3]; interval_cases i <;> decide)
    (by norm_num)
  rw [h, h']
  have r1 : dates =
      [⟨2020, 7, 10⟩, ⟨2020, 7, 11⟩, ⟨2020, 7, 12⟩, ⟨2020, 7, 13⟩, ⟨2020, 7, 14⟩] := by
    apply List.ext_get (by rw [hlen]; rfl)
    intro i h1 h2
    rw [(hget i h1).1]
    simp only [List.length_cons, List.length_nil] at h2
    interval_cases i <;> rfl
  have r2 : dates' = [⟨2020, 3, 7⟩, ⟨2020, 3, 8⟩, ⟨2020, 3, 9⟩] := by
    apply List.ext_get (by rw [hlen']; rfl)
    intro i h1 h2
    rw [(hget' i h1).1]
    simp only [List.length_cons, List.length_nil] at h2
    interval_cases i <;> rfl
  rw [r1, r2]
  exact ⟨rfl, rfl⟩

/-- C1, counterexample: in `America/Sao_Paulo` daylight saving time began at local
midnight of 4 November 2018, so that midnight does not exist; for the range 2018-11-04
to 2018-11-05 both strings parse, the zone resolves and the end is after the start, yet
`DatesInBetween` returns 3 and 4 November: the first entry is not the start date and the
end date is missing. -/
theorem C1_DatesInBetween_counterexample :
    dateFields "2018-11-04" = some (2018, 11, 4) ∧
    dateFields "2018-11-05" = some (2018, 11, 5) ∧
    LoadLocation tzdb "America/Sao_Paulo" = Except.ok saoPaulo ∧
    utcMidnight 2018 11 4 ≤ utcMidnight 2018 11 5 ∧
    ∀ fuel : Nat, 2 ≤ fuel →
      Timespan.DatesInBetween tzdb fuel
        ⟨"2018-11-04", "2018-11-05", "08:00:00", "22:00:00", "America/Sao_Paulo"⟩ =
        some ([⟨2018, 11, 3⟩, ⟨2018, 11, 4⟩], none) := by
  refine ⟨by decide, by decide, rfl, by decide, ?_⟩
  intro fuel hf
  exact DatesInBetween_mono tzdb _ 2 _ (by decide) fuel hf

end BHX
